import Mathlib

/-!
# gowebshareproxy: proxy-descriptor parsing, random selection and request decoration

A shallow embedding of `proxy.go`.  Go strings are modelled by Lean strings (Go strings that
are valid UTF-8), Go `error` values by their message, and the collaborators of the package
(wall clock, `math/rand`, `net/url`, `net/http`) by the fields of `Env`.
-/

set_option autoImplicit false

namespace gowebshareproxy

/-! ## Go standard-library helpers used by `proxy.go` -/

/-- Go `error` value, represented by the text that `Error()` returns. -/
abbrev GoError := String

/-- Function `errors.New`: an error that formats as the given text. -/
def errorsNew (text : String) : GoError := text

/-- Function `strings.IndexByte` on the characters of a string: position of the first
occurrence of `c`, or `none` where Go returns `-1`. -/
def IndexByte : List Char → Char → Option Nat
  | [], _ => none
  | x :: xs, c => if x = c then some 0 else (IndexByte xs c).map (· + 1)

/-- Function `strings.Count` for a one-character separator. -/
def Count (s : List Char) (sep : Char) : Nat := s.count sep

/-- The loop of `strings.genSplit` (`sepSave = 0`): at most `n` cuts at the first occurrence of
the separator, then the remainder of the string as the last element. -/
def genSplitLoop (sep : Char) : Nat → List Char → List (List Char)
  | 0, s => [s]
  | n + 1, s =>
    match IndexByte s sep with
    | none => [s]
    | some m => s.take m :: genSplitLoop sep n (s.drop (m + 1))

/-- Function `strings.Split(s, sep)` for a one-character separator, as `genSplit(s, sep, 0, -1)`
computes it: `n = Count(s, sep) + 1` elements, found by `n - 1` cuts. -/
def Split (s : String) (sep : Char) : List String :=
  (genSplitLoop sep (Count s.data sep) s.data).map String.mk

/-- Function `strings.Contains` on character lists: some suffix of `s` starts with `substr`. -/
def containsChars : List Char → List Char → Bool
  | [], sub => sub.isEmpty
  | c :: cs, sub => sub.isPrefixOf (c :: cs) || containsChars cs sub

/-- Function `strings.Contains`. -/
def Contains (s substr : String) : Bool := containsChars s.data substr.data

/-- The `%s` fragment of `fmt.Sprintf`: every `%s` verb is replaced by the next operand, a verb
with no operand left prints `%!s(MISSING)`, every other character is copied. -/
def sprintfChars : List Char → List String → List Char
  | '%' :: 's' :: rest, a :: args => a.data ++ sprintfChars rest args
  | '%' :: 's' :: rest, [] => "%!s(MISSING)".data ++ sprintfChars rest []
  | c :: rest, args => c :: sprintfChars rest args
  | [], _ => []

/-- Function `fmt.Sprintf` for formats whose only verb is `%s`, applied to string operands. -/
def Sprintf (format : String) (args : List String) : String :=
  String.mk (sprintfChars format.data args)

/-! ## Constants of `proxy.go` -/

/-- Constant `authorizationHeader`. -/
def authorizationHeader : String := "Proxy-Authorization"

/-- Constant `proxyStringFormat`. -/
def proxyStringFormat : String := "<HOST>:<PORT>:<USER>:<PASS>"

/-- Constant `expectedProxyStringSplitCount`. -/
def expectedProxyStringSplitCount : Nat := 4

/-! ## Descriptor parser -/

/-- The five results of `parseProxyString`; `err = none` is Go's `nil` error. -/
structure ParsedProxy where
  host : String
  port : String
  username : String
  password : String
  err : Option GoError
  deriving DecidableEq, Repr

/-- Method `(*proxy).parseProxyString` (the receiver is not used by the body). -/
def parseProxyString (proxyString : String) : ParsedProxy :=
  let split := Split proxyString ':'
  if split.length ≠ expectedProxyStringSplitCount then
    ⟨"", "", "", "", some (errorsNew (Sprintf
      ("expected a file containing a list of strings in the following format: '%s', but got a different " ++
        "format - it looks like the format of the file may have changed or you provided an incorrect file")
      [proxyStringFormat]))⟩
  else
    ⟨split.getD 0 "", split.getD 1 "", split.getD 2 "", split.getD 3 "", none⟩

/-- Gluing the pieces back with the separator between them. -/
def glue (c : Char) : List (List Char) → List Char
  | [] => []
  | [a] => a
  | a :: b :: rest => a ++ c :: glue c (b :: rest)

/-! ## Base64 (`encoding/base64`) -/

/-- Conversion `[]byte(s)`: the UTF-8 bytes of a string. -/
def bytes (s : String) : List UInt8 := s.data.flatMap String.utf8EncodeChar

namespace base64

/-- Constant `encodeStd`, the standard alphabet. -/
def encodeStd : String := "ABCDEFGHIJKLMNOPQRSTUVWXYZabcdefghijklmnopqrstuvwxyz0123456789+/"

/-- Constant `StdPadding`. -/
def StdPadding : Char := '='

/-- Table lookup `enc.encode[i]` in the standard alphabet. -/
def encode (i : Nat) : Char := encodeStd.data.getD i 'A'

/-- Method `(*Encoding).Encode` of `StdEncoding`: whole groups of three bytes give four
characters; a remainder of one or two bytes gives two or three characters and padding. -/
def Encode : List UInt8 → List Char
  | a :: b :: c :: rest =>
    let val := a.toNat <<< 16 ||| b.toNat <<< 8 ||| c.toNat
    encode (val >>> 18 &&& 0x3F) :: encode (val >>> 12 &&& 0x3F) ::
      encode (val >>> 6 &&& 0x3F) :: encode (val &&& 0x3F) :: Encode rest
  | [a, b] =>
    let val := a.toNat <<< 16 ||| b.toNat <<< 8
    [encode (val >>> 18 &&& 0x3F), encode (val >>> 12 &&& 0x3F), encode (val >>> 6 &&& 0x3F),
      StdPadding]
  | [a] =>
    let val := a.toNat <<< 16
    [encode (val >>> 18 &&& 0x3F), encode (val >>> 12 &&& 0x3F), StdPadding, StdPadding]
  | [] => []

/-- Method `StdEncoding.EncodeToString`. -/
def EncodeToString (src : List UInt8) : String := String.mk (Encode src)

end base64

/-! ## Standard padded Base64 as RFC 4648 section 4 words it -/

namespace rfc4648

/-- The eight bits of an octet, most significant first. -/
def octetBits (b : UInt8) : List Bool :=
  [b.toNat / 128 % 2 = 1, b.toNat / 64 % 2 = 1, b.toNat / 32 % 2 = 1, b.toNat / 16 % 2 = 1,
   b.toNat / 8 % 2 = 1, b.toNat / 4 % 2 = 1, b.toNat / 2 % 2 = 1, b.toNat % 2 = 1]

/-- The number written by a list of bits, most significant first. -/
def bitsValue (bits : List Bool) : Nat := bits.foldl (fun acc b => 2 * acc + b.toNat) 0

/-- The bit stream cut into groups of six; a last, shorter group is filled with zero bits on
the right. -/
def sextets : List Bool → List (List Bool)
  | b0 :: b1 :: b2 :: b3 :: b4 :: b5 :: rest => [b0, b1, b2, b3, b4, b5] :: sextets rest
  | [] => []
  | short => [short ++ List.replicate (6 - short.length) false]

/-- The 64-character alphabet of table 1: `A`-`Z`, `a`-`z`, `0`-`9`, `+`, `/`. -/
def alphabet (v : Nat) : Char :=
  if v < 26 then Char.ofNat (65 + v)
  else if v < 52 then Char.ofNat (97 + (v - 26))
  else if v < 62 then Char.ofNat (48 + (v - 52))
  else if v = 62 then '+'
  else '/'

/-- The characters before padding: six bits of the stream of octets per character. -/
def characters (octets : List UInt8) : List Char :=
  (sextets (octets.flatMap octetBits)).map (fun g => alphabet (bitsValue g))

/-- Standard Base64 with padding: the characters of the bit stream, and `=` appended until the
length is a multiple of four. -/
def base64Std (octets : List UInt8) : String :=
  String.mk (characters octets ++ List.replicate ((4 - (characters octets).length % 4) % 4) '=')

end rfc4648

/-! ## `net/textproto`, `net/url` and `net/http` -/

/-- Function `validHeaderFieldByte` of `net/textproto`: the token characters of RFC 7230. -/
def validHeaderFieldByte (c : Char) : Bool :=
  c.isAlphanum || "!#$%&'*+-.^_`|~".data.contains c

/-- The rewriting loop of `canonicalMIMEHeaderKey`: upper case at the start and after `-`,
lower case elsewhere. -/
def canonicalMIMEHeaderKeyLoop : Bool → List Char → List Char
  | _, [] => []
  | upper, c :: cs =>
    let c :=
      if upper && 'a' ≤ c && c ≤ 'z' then c.toUpper
      else if !upper && 'A' ≤ c && c ≤ 'Z' then c.toLower
      else c
    c :: canonicalMIMEHeaderKeyLoop (c == '-') cs

/-- Function `textproto.CanonicalMIMEHeaderKey`: a key with a character that is not a token
character is returned unchanged. -/
def CanonicalMIMEHeaderKey (s : String) : String :=
  if s.data.all validHeaderFieldByte then String.mk (canonicalMIMEHeaderKeyLoop true s.data) else s

namespace url

/-- Type `url.URL` (the string fields; `User` is the user-info text when present). -/
structure URL where
  Scheme : String
  User : Option String
  Host : String
  Path : String
  RawQuery : String
  Fragment : String
  deriving DecidableEq, Repr

end url

namespace http

/-- Type `http.Header`: a map from canonical keys to the values added under them, kept as an
association list with one entry per key. -/
abbrev Header := List (String × List String)

/-- Method `Header.Add`: appends the value to those of the canonical form of the key. -/
def Header.Add (h : Header) (key value : String) : Header :=
  let key := CanonicalMIMEHeaderKey key
  match h.lookup key with
  | some _ => h.map (fun kv => if kv.1 = key then (kv.1, kv.2 ++ [value]) else kv)
  | none => h ++ [(key, [value])]

/-- Type `http.Request`, opaque to this package. -/
structure Request where
  Method : String
  URL : String
  Header : Header
  deriving DecidableEq, Repr

/-- Type `http.Response`, opaque to this package. -/
structure Response where
  StatusCode : Int
  Body : String
  deriving DecidableEq, Repr

/-- Type `http.Transport`, with the two fields that `proxy.go` sets; `Proxy = none` is a nil
function. -/
structure Transport where
  Proxy : Option (Request → Option url.URL × Option GoError)
  ProxyConnectHeader : Header

/-- Function `http.ProxyURL`: a proxy function that always returns the same URL. -/
def ProxyURL (fixedURL : url.URL) : Option (Request → Option url.URL × Option GoError) :=
  some (fun _ => (some fixedURL, none))

/-- Type `http.Client`; `Transport = none` is the nil round tripper. -/
structure Client where
  Transport : Option Transport
  Timeout : Int

end http

/-! ## The façade -/

/-- What the package does to the outside world, in order. -/
inductive Effect where
  /-- Call `time.Now()`. -/
  | timeNow
  /-- Call `rand.New(rand.NewSource(seed)).Intn(n)`. -/
  | randIntn (seed : Int) (n : Int)
  /-- Call `client.Do(&request)` on the client as configured at that moment. -/
  | clientDo (client : http.Client) (request : http.Request)

/-- The collaborators of the package: the wall clock in seconds, `math/rand` (`none` is the
panic of `Intn`), `url.Parse` and `http.Client.Do`. -/
structure Env where
  Unix : Int
  Intn : Int → Int → Option Int
  Parse : String → Except GoError url.URL
  Do : http.Client → http.Request → Option http.Response × Option GoError

/-- Documented contract of `Intn`: for `n > 0` a number in the half-open interval `[0, n)`. -/
def IntnContract (Intn : Int → Int → Option Int) : Prop :=
  ∀ seed n : Int, 0 < n → ∃ i : Int, Intn seed n = some i ∧ 0 ≤ i ∧ i < n

/-- Type `proxy`. -/
structure proxy where
  client : http.Client
  proxyList : List String

/-- The receiver `*proxy` together with the effects performed so far. -/
structure State where
  self : proxy
  effects : List Effect

/-- A call either returns or panics. -/
inductive Outcome (α : Type) where
  | panic (reason : String)
  | returns (a : α)

/-- The results `(proxyURL, response, err)` of `RequestWithRandomProxy`. -/
structure RandomProxyResult where
  proxyURL : Option url.URL
  response : Option http.Response
  err : Option GoError
  deriving DecidableEq, Repr

/-- Function `New`. -/
def New (client : http.Client) : proxy :=
  { client := client, proxyList := [] }

/-- Function `NewWithList`. -/
def NewWithList (client : http.Client) (proxyList : List String) : proxy :=
  { client := client, proxyList := proxyList }

/-- The CONNECT header that `Request` builds from the credentials. -/
def connectHeader (proxyUser proxyPassword : String) : http.Header :=
  let header : http.Header := []
  let auth := Sprintf "%s:%s" [proxyUser, proxyPassword]
  let basicAuth := "Basic " ++ base64.EncodeToString (bytes auth)
  header.Add authorizationHeader basicAuth

/-- Method `(*proxy).Request`. -/
def proxy.Request (env : Env) (s : State) (request : http.Request) (proxyURL : url.URL)
    (proxyUser proxyPassword : String) : (Option http.Response × Option GoError) × State :=
  let header := connectHeader proxyUser proxyPassword
  let client : http.Client :=
    { s.self.client with
      Transport := some { Proxy := http.ProxyURL proxyURL, ProxyConnectHeader := header } }
  (env.Do client request,
    { self := { s.self with client := client },
      effects := s.effects ++ [Effect.clientDo client request] })

/-- Method `(*proxy).chooseRandomIndex`. -/
def proxy.chooseRandomIndex (env : Env) (s : State) : Outcome Int × State :=
  let seed := env.Unix
  let n : Int := s.self.proxyList.length
  let s := { s with effects := s.effects ++ [Effect.timeNow, Effect.randIntn seed n] }
  match env.Intn seed n with
  | none => (Outcome.panic "invalid argument to Intn", s)
  | some i => (Outcome.returns i, s)

/-- The body of `RequestWithRandomProxy` from the call of `parseProxyString` on. -/
def proxy.requestThrough (env : Env) (s : State) (request : http.Request) (proxyString : String) :
    RandomProxyResult × State :=
  let parsed := parseProxyString proxyString
  match parsed.err with
  | some err => (⟨none, none, some err⟩, s)
  | none =>
    match env.Parse (Sprintf "//%s:%s" [parsed.host, parsed.port]) with
    | Except.error err =>
      (⟨none, none, some (errorsNew
        (Sprintf "unable to parse host / port into a valid uri, error: '%s'" [err]))⟩, s)
    | Except.ok proxyURL =>
      let (r, s) := proxy.Request env s request proxyURL parsed.username parsed.password
      (⟨some proxyURL, r.1, r.2⟩, s)

/-- Method `(*proxy).RequestWithRandomProxy`. -/
def proxy.RequestWithRandomProxy (env : Env) (s : State) (request : http.Request) :
    Outcome RandomProxyResult × State :=
  if s.self.proxyList.length = 0 then
    (Outcome.returns ⟨none, none, some (errorsNew
      ("cannot call RequestWithRandomProxy with no proxies provided on initialisation - ensure that you have " ++
        "initialised with gowebshareproxy.NewWithList() and provided a proxy list as the README shows"))⟩, s)
  else
    match proxy.chooseRandomIndex env s with
    | (Outcome.panic reason, s) => (Outcome.panic reason, s)
    | (Outcome.returns index, s) =>
      if 0 ≤ index ∧ index < s.self.proxyList.length then
        match s.self.proxyList.get? index.toNat with
        | some proxyString =>
          let (r, s) := proxy.requestThrough env s request proxyString
          (Outcome.returns r, s)
        | none => (Outcome.panic "index out of range", s)
      else
        (Outcome.panic "index out of range", s)

/-- The state after `chooseRandomIndex` has read the clock and asked for an index. -/
def afterSelection (env : Env) (s : State) : State :=
  { s with effects := s.effects ++ [Effect.timeNow, Effect.randIntn env.Unix s.self.proxyList.length] }

/-! ## Test doubles for the collaborators -/

/-- A clock and generator double: second 7, `Intn(n) = seed mod n`, panic for `n ≤ 0`. -/
def fakeIntn (seed n : Int) : Option Int := if 0 < n then some (seed % n) else none

/-- The characters on which the double for `url.Parse` follows the library: letters, digits,
`.`, `-`, `:` and `/`. -/
def plainURLChar (c : Char) : Bool :=
  c.isAlphanum || c == '.' || c == '-' || c == ':' || c == '/'

/-- The text `host[i:]` for `i` the last index of `:` in the host, as `parseHost` of `net/url`
cuts it; empty when the host has no `:`. -/
def colonPort : List Char → List Char
  | [] => []
  | c :: cs =>
    match colonPort cs with
    | [] => if c = ':' then c :: cs else []
    | found => found

/-- Function `validOptionalPort` of `net/url`: empty, or `:` followed by digits only. -/
def validOptionalPort : List Char → Bool
  | [] => true
  | ':' :: digits => digits.all (fun b => '0' ≤ b && b ≤ '9')
  | _ :: _ => false

/-- The verb `%q` on text without quotes, backslashes or unprintable characters. -/
def quoted (s : String) : String :=
  String.mk [Char.ofNat 34] ++ s ++ String.mk [Char.ofNat 34]

/-- A double for `url.Parse` that follows `net/url` on the raw URLs the package builds, as long
as they are made of letters, digits, `.`, `-`, `:` and `/`: there is no scheme, query or
fragment; after `//` (and not `///`) the authority runs up to the first `/` and the rest is the
path; a port after the last `:` of the host must be digits.  Any other raw URL is refused by
the double. -/
def fakeParse (rawURL : String) : Except GoError url.URL :=
  if !rawURL.data.all plainURLChar then Except.error "raw URL outside the double"
  else
    match rawURL.data with
    | '/' :: '/' :: '/' :: _ =>
      Except.ok
        { Scheme := "", User := none, Host := "", Path := rawURL, RawQuery := "", Fragment := "" }
    | '/' :: '/' :: rest =>
      let authority := rest.takeWhile (fun c => c != '/')
      let path := rest.dropWhile (fun c => c != '/')
      if validOptionalPort (colonPort authority) then
        Except.ok
          { Scheme := "", User := none, Host := String.mk authority, Path := String.mk path,
            RawQuery := "", Fragment := "" }
      else
        Except.error (Sprintf "parse %s: invalid port %s after host"
          [quoted rawURL, quoted (String.mk (colonPort authority))])
    | _ => Except.error "raw URL outside the double"

/-- A double for the client: status 200 through a proxy, an error without a transport. -/
def fakeDo (client : http.Client) (_request : http.Request) : Option http.Response × Option GoError :=
  match client.Transport with
  | some _ => (some { StatusCode := 200, Body := "ok" }, none)
  | none => (none, some "no transport")

/-- The collaborators used by the examples. -/
def fakeEnv : Env := { Unix := 7, Intn := fakeIntn, Parse := fakeParse, Do := fakeDo }

/-- A client without transport. -/
def plainClient : http.Client := { Transport := none, Timeout := 0 }

/-- A GET request. -/
def getRequest : http.Request := { Method := "GET", URL := "https://example.org/", Header := [] }

/-- A façade with the one proxy of the scenario, before any call. -/
def demoState : State :=
  { self := NewWithList plainClient ["1.2.3.4:8080:alice:secret"], effects := [] }

/-- The endpoint of the scenario as the double for `url.Parse` builds it. -/
def demoEndpoint : url.URL :=
  { Scheme := "", User := none, Host := "1.2.3.4:8080", Path := "", RawQuery := "", Fragment := "" }

/-- A façade whose one proxy line has a `/` in its host field, before any call. -/
def slashState : State :=
  { self := NewWithList plainClient ["a/b:80:u:p"], effects := [] }

/-- The endpoint that `url.Parse` composes from `//a/b:80`: host `a`, path `/b:80`. -/
def slashEndpoint : url.URL :=
  { Scheme := "", User := none, Host := "a", Path := "/b:80", RawQuery := "", Fragment := "" }

/-! ## Lemmas on splitting -/

theorem IndexByte_eq_none (c : Char) (s : List Char) : IndexByte s c = none ↔ c ∉ s := by
  induction s with
  | nil => simp [IndexByte]
  | cons x xs ih =>
    by_cases h : x = c
    · simp [IndexByte, h]
    · simp [IndexByte, h, ih, Ne.symm h]

theorem IndexByte_append_cons (c : Char) (a b : List Char) (h : c ∉ a) :
    IndexByte (a ++ c :: b) c = some a.length := by
  induction a with
  | nil => simp [IndexByte]
  | cons x xs ih =>
    have hx : x ≠ c := fun e => h (by simp [e])
    have hxs : c ∉ xs := fun e => h (by simp [e])
    simp [IndexByte, hx, ih hxs]

theorem IndexByte_some (c : Char) (s : List Char) (m : Nat) (h : IndexByte s c = some m) :
    c ∉ s.take m ∧ s = s.take m ++ c :: s.drop (m + 1) := by
  induction s generalizing m with
  | nil => simp [IndexByte] at h
  | cons x xs ih =>
    by_cases hx : x = c
    · simp [IndexByte, hx] at h
      subst h
      simp [hx]
    · simp only [IndexByte, hx, if_false, Option.map_eq_some'] at h
      obtain ⟨k, hk, rfl⟩ := h
      obtain ⟨h1, h2⟩ := ih k hk
      refine ⟨?_, ?_⟩
      · simp only [List.take_succ_cons, List.mem_cons, not_or]
        exact ⟨fun e => hx e.symm, h1⟩
      · simp only [List.take_succ_cons, List.drop_succ_cons, List.cons_append]
        exact congrArg (x :: ·) h2

theorem genSplitLoop_clean (c : Char) (n : Nat) (s : List Char) (h : c ∉ s) :
    genSplitLoop c n s = [s] := by
  cases n with
  | zero => rfl
  | succ n => simp [genSplitLoop, (IndexByte_eq_none c s).2 h]

theorem genSplitLoop_append_cons (c : Char) (n : Nat) (a b : List Char) (h : c ∉ a) :
    genSplitLoop c (n + 1) (a ++ c :: b) = a :: genSplitLoop c n b := by
  simp [genSplitLoop, IndexByte_append_cons c a b h]

theorem count_append_cons_clean (c : Char) (a b : List Char) (h : c ∉ a) :
    Count (a ++ c :: b) c = Count b c + 1 := by
  simp [Count, List.count_eq_zero_of_not_mem h]

theorem genSplitLoop_length (c : Char) (n : Nat) :
    ∀ s : List Char, Count s c = n → (genSplitLoop c n s).length = n + 1 := by
  induction n with
  | zero => intro s _; rfl
  | succ n ih =>
    intro s hs
    have hmem : c ∈ s := by
      by_contra hc
      simp [Count, List.count_eq_zero_of_not_mem hc] at hs
    cases hi : IndexByte s c with
    | none => exact absurd hmem ((IndexByte_eq_none c s).1 hi)
    | some m =>
      obtain ⟨h1, h2⟩ := IndexByte_some c s m hi
      have hc : Count (s.drop (m + 1)) c = n := by
        have := count_append_cons_clean c (s.take m) (s.drop (m + 1)) h1
        rw [← h2, hs] at this
        omega
      simp [genSplitLoop, hi, ih _ hc]

theorem genSplitLoop_mem_clean (c : Char) (n : Nat) :
    ∀ s : List Char, Count s c = n → ∀ f ∈ genSplitLoop c n s, c ∉ f := by
  induction n with
  | zero =>
    intro s hs f hf
    simp only [genSplitLoop, List.mem_singleton] at hf
    subst hf
    exact List.count_eq_zero.1 hs
  | succ n ih =>
    intro s hs f hf
    have hmem : c ∈ s := by
      by_contra hc
      simp [Count, List.count_eq_zero_of_not_mem hc] at hs
    cases hi : IndexByte s c with
    | none => exact absurd hmem ((IndexByte_eq_none c s).1 hi)
    | some m =>
      obtain ⟨h1, h2⟩ := IndexByte_some c s m hi
      have hc : Count (s.drop (m + 1)) c = n := by
        have := count_append_cons_clean c (s.take m) (s.drop (m + 1)) h1
        rw [← h2, hs] at this
        omega
      simp only [genSplitLoop, hi, List.mem_cons] at hf
      rcases hf with rfl | hf
      · exact h1
      · exact ih _ hc f hf

theorem genSplitLoop_ne_nil (c : Char) (n : Nat) (s : List Char) : genSplitLoop c n s ≠ [] := by
  cases n with
  | zero => simp [genSplitLoop]
  | succ n => cases hi : IndexByte s c <;> simp [genSplitLoop, hi]

theorem glue_cons (c : Char) (a : List Char) (l : List (List Char)) (hl : l ≠ []) :
    glue c (a :: l) = a ++ c :: glue c l := by
  cases l with
  | nil => exact absurd rfl hl
  | cons b rest => rfl

theorem glue_genSplitLoop (c : Char) (n : Nat) :
    ∀ s : List Char, glue c (genSplitLoop c n s) = s := by
  induction n with
  | zero => intro s; rfl
  | succ n ih =>
    intro s
    cases hi : IndexByte s c with
    | none => simp [genSplitLoop, hi, glue]
    | some m =>
      obtain ⟨_, h2⟩ := IndexByte_some c s m hi
      simp only [genSplitLoop, hi]
      rw [glue_cons c _ _ (genSplitLoop_ne_nil c n _), ih]
      exact h2.symm

theorem Split_length (s : String) (c : Char) : (Split s c).length = Count s.data c + 1 := by
  simp [Split, genSplitLoop_length c _ s.data rfl]

/-! ## The parser -/

theorem Split_four (h p u pw : String)
    (hh : ':' ∉ h.data) (hp : ':' ∉ p.data) (hu : ':' ∉ u.data) (hpw : ':' ∉ pw.data) :
    Split (h ++ ":" ++ p ++ ":" ++ u ++ ":" ++ pw) ':' = [h, p, u, pw] := by
  have hd : (h ++ ":" ++ p ++ ":" ++ u ++ ":" ++ pw).data
      = h.data ++ ':' :: (p.data ++ ':' :: (u.data ++ ':' :: pw.data)) := by
    simp [String.data_append]
  have hc : Count (h.data ++ ':' :: (p.data ++ ':' :: (u.data ++ ':' :: pw.data))) ':' = 3 := by
    rw [count_append_cons_clean _ _ _ hh, count_append_cons_clean _ _ _ hp,
      count_append_cons_clean _ _ _ hu]
    simp [Count, List.count_eq_zero_of_not_mem hpw]
  unfold Split
  rw [hd, hc, genSplitLoop_append_cons _ _ _ _ hh, genSplitLoop_append_cons _ _ _ _ hp,
    genSplitLoop_append_cons _ _ _ _ hu, genSplitLoop_clean _ _ _ hpw]
  rfl

theorem parseProxyString_err_ne_none (line : String) :
    (parseProxyString line).err ≠ none ↔ (Split line ':').length ≠ 4 := by
  unfold parseProxyString
  by_cases h : (Split line ':').length = 4
  · simp [h, expectedProxyStringSplitCount]
  · simp [h, expectedProxyStringSplitCount]

/-- The text of the error that `parseProxyString` returns. -/
theorem parseProxyString_malformed (line : String) (h : (Split line ':').length ≠ 4) :
    parseProxyString line = ⟨"", "", "", "", some
      "expected a file containing a list of strings in the following format: '<HOST>:<PORT>:<USER>:<PASS>', but got a different format - it looks like the format of the file may have changed or you provided an incorrect file"⟩ := by
  unfold parseProxyString
  simp only [expectedProxyStringSplitCount, ne_eq, h, not_false_eq_true, if_true]
  rfl

theorem containsChars_iff (s sub : List Char) : containsChars s sub = true ↔ sub <:+: s := by
  induction s with
  | nil => cases sub <;> simp [containsChars]
  | cons c cs ih =>
    simp only [containsChars, Bool.or_eq_true, ih, List.infix_cons_iff, List.isPrefixOf_iff_prefix]

theorem Contains_iff (s sub : String) :
    Contains s sub = true ↔ ∃ a b : String, s = a ++ sub ++ b := by
  unfold Contains
  rw [containsChars_iff]
  constructor
  · rintro ⟨a, b, h⟩
    exact ⟨String.mk a, String.mk b, String.ext (by simp [String.data_append, h])⟩
  · rintro ⟨a, b, h⟩
    exact ⟨a.data, b.data, by simp [h, String.data_append]⟩

theorem parseProxyString_fields (h p u pw : String)
    (hh : ':' ∉ h.data) (hp : ':' ∉ p.data) (hu : ':' ∉ u.data) (hpw : ':' ∉ pw.data) :
    parseProxyString (h ++ ":" ++ p ++ ":" ++ u ++ ":" ++ pw) = ⟨h, p, u, pw, none⟩ := by
  unfold parseProxyString
  rw [Split_four h p u pw hh hp hu hpw]
  rfl

/-- C1: a line `h:p:u:pw` whose four fields contain no `:` parses without error into exactly
`(h, p, u, pw)`; the fields may be empty. -/
theorem parseProxyString_wellFormed (h p u pw : String)
    (hh : ':' ∉ h.data) (hp : ':' ∉ p.data) (hu : ':' ∉ u.data) (hpw : ':' ∉ pw.data) :
    (parseProxyString (h ++ ":" ++ p ++ ":" ++ u ++ ":" ++ pw)).err = none ∧
    (parseProxyString (h ++ ":" ++ p ++ ":" ++ u ++ ":" ++ pw)).host = h ∧
    (parseProxyString (h ++ ":" ++ p ++ ":" ++ u ++ ":" ++ pw)).port = p ∧
    (parseProxyString (h ++ ":" ++ p ++ ":" ++ u ++ ":" ++ pw)).username = u ∧
    (parseProxyString (h ++ ":" ++ p ++ ":" ++ u ++ ":" ++ pw)).password = pw := by
  rw [parseProxyString_fields h p u pw hh hp hu hpw]
  exact ⟨rfl, rfl, rfl, rfl, rfl⟩

theorem parseProxyString_wellFormed_witness :
    (parseProxyString "1.2.3.4:8080::secret").err = none ∧
    (parseProxyString "1.2.3.4:8080::secret").host = "1.2.3.4" ∧
    (parseProxyString "1.2.3.4:8080::secret").port = "8080" ∧
    (parseProxyString "1.2.3.4:8080::secret").username = "" ∧
    (parseProxyString "1.2.3.4:8080::secret").password = "secret" :=
  parseProxyString_wellFormed "1.2.3.4" "8080" "" "secret"
    (by decide) (by decide) (by decide) (by decide)

/-- C2: `parseProxyString` fails exactly when the split does not give four segments, that is
when the line does not hold exactly three `:`; a failure returns four empty strings; the empty
line, a line without `:` and a line whose password holds a `:` are rejected. -/
theorem parseProxyString_fails_iff (line : String) :
    ((parseProxyString line).err ≠ none ↔ (Split line ':').length ≠ 4) ∧
    ((Split line ':').length ≠ 4 ↔ line.data.count ':' ≠ 3) ∧
    ((parseProxyString line).err ≠ none →
      (parseProxyString line).host = "" ∧ (parseProxyString line).port = "" ∧
      (parseProxyString line).username = "" ∧ (parseProxyString line).password = "") ∧
    (parseProxyString "").err ≠ none ∧
    (':' ∉ line.data → (parseProxyString line).err ≠ none) ∧
    (∀ h p u pw : String, ':' ∈ pw.data →
      (parseProxyString (h ++ ":" ++ p ++ ":" ++ u ++ ":" ++ pw)).err ≠ none) := by
  have hlen : ∀ l : String, (Split l ':').length ≠ 4 ↔ l.data.count ':' ≠ 3 := by
    intro l
    rw [Split_length]
    unfold Count
    omega
  refine ⟨parseProxyString_err_ne_none line, hlen line, ?_, by decide, ?_, ?_⟩
  · intro h
    rw [parseProxyString_malformed line ((parseProxyString_err_ne_none line).1 h)]
    exact ⟨rfl, rfl, rfl, rfl⟩
  · intro h
    rw [parseProxyString_err_ne_none, hlen, List.count_eq_zero_of_not_mem h]
    decide
  · intro h p u pw hpw
    rw [parseProxyString_err_ne_none, hlen]
    have : 0 < pw.data.count ':' := List.count_pos_iff.2 hpw
    simp only [String.data_append, List.count_append]
    have h1 : List.count ':' [':'] = 1 := by decide
    omega

/-- C10: when `parseProxyString` succeeds, the four fields joined with `:` are the input line,
character for character, and no field contains `:`. -/
theorem parseProxyString_verbatim (line : String) (hok : (parseProxyString line).err = none) :
    (parseProxyString line).host ++ ":" ++ (parseProxyString line).port ++ ":" ++
        (parseProxyString line).username ++ ":" ++ (parseProxyString line).password = line ∧
    ':' ∉ (parseProxyString line).host.data ∧ ':' ∉ (parseProxyString line).port.data ∧
    ':' ∉ (parseProxyString line).username.data ∧
    ':' ∉ (parseProxyString line).password.data := by
  have hlen : (Split line ':').length = 4 := by
    by_contra hne
    exact (parseProxyString_err_ne_none line).2 hne hok
  have hglue := glue_genSplitLoop ':' (Count line.data ':') line.data
  have hclean := genSplitLoop_mem_clean ':' (Count line.data ':') line.data rfl
  have hlen2 : (genSplitLoop ':' (Count line.data ':') line.data).length = 4 := by
    simpa [Split] using hlen
  unfold parseProxyString
  simp only [expectedProxyStringSplitCount, ne_eq, hlen, not_true_eq_false, if_false]
  unfold Split
  match hL : genSplitLoop ':' (Count line.data ':') line.data, hlen2 with
  | [a, b, c, d], _ =>
    rw [hL] at hglue hclean
    refine ⟨String.ext ?_, ?_, ?_, ?_, ?_⟩
    · simpa [String.data_append, glue] using hglue
    · exact hclean a (by simp)
    · exact hclean b (by simp)
    · exact hclean c (by simp)
    · exact hclean d (by simp)

theorem parseProxyString_verbatim_witness :
    (parseProxyString " 1.2.3.4:8080 :alice:se cret ").host ++ ":" ++
        (parseProxyString " 1.2.3.4:8080 :alice:se cret ").port ++ ":" ++
        (parseProxyString " 1.2.3.4:8080 :alice:se cret ").username ++ ":" ++
        (parseProxyString " 1.2.3.4:8080 :alice:se cret ").password
      = " 1.2.3.4:8080 :alice:se cret " :=
  (parseProxyString_verbatim " 1.2.3.4:8080 :alice:se cret " (by decide)).1

/-! ## Base64: the encoder of the library is the encoding of RFC 4648 -/

theorem encode_eq_alphabet : ∀ i : Nat, i < 64 → base64.encode i = rfc4648.alphabet i := by
  decide

theorem toNat_decide_odd (n : Nat) : (decide (n % 2 = 1)).toNat = n % 2 := by
  rcases Nat.mod_two_eq_zero_or_one n with h | h <;> simp [h]

theorem bitsValue_six (b0 b1 b2 b3 b4 b5 : Bool) :
    rfc4648.bitsValue [b0, b1, b2, b3, b4, b5]
      = 32 * b0.toNat + 16 * b1.toNat + 8 * b2.toNat + 4 * b3.toNat + 2 * b4.toNat + b5.toNat := by
  simp only [rfc4648.bitsValue, List.foldl]
  omega

theorem group_value (a b c : Nat) (hb : b < 256) (hc : c < 256) :
    a <<< 16 ||| b <<< 8 ||| c = 65536 * a + 256 * b + c := by
  have h1 : b <<< 8 ||| c = 256 * b + c := by
    rw [Nat.shiftLeft_eq, Nat.mul_comm]
    exact (Nat.mul_add_lt_is_or (i := 8) hc b).symm
  have h2 : 256 * b + c < 2 ^ 16 := by omega
  rw [Nat.or_assoc, h1, Nat.shiftLeft_eq, Nat.mul_comm]
  rw [← Nat.mul_add_lt_is_or h2 a]
  omega

theorem and_63 (x : Nat) : x &&& 0x3F = x % 64 := Nat.and_pow_two_sub_one_eq_mod x 6

theorem toNat_lt_256 (a : UInt8) : a.toNat < 256 := a.val.isLt

/-- The four characters of a whole group of three octets. -/
theorem sextet_chars (a b c : Nat) (ha : a < 256) (hb : b < 256) (hc : c < 256) :
    base64.encode ((65536 * a + 256 * b + c) >>> 18 &&& 0x3F)
        = rfc4648.alphabet (rfc4648.bitsValue [a / 128 % 2 = 1, a / 64 % 2 = 1,
            a / 32 % 2 = 1, a / 16 % 2 = 1, a / 8 % 2 = 1, a / 4 % 2 = 1]) ∧
    base64.encode ((65536 * a + 256 * b + c) >>> 12 &&& 0x3F)
        = rfc4648.alphabet (rfc4648.bitsValue [a / 2 % 2 = 1, a % 2 = 1,
            b / 128 % 2 = 1, b / 64 % 2 = 1, b / 32 % 2 = 1, b / 16 % 2 = 1]) ∧
    base64.encode ((65536 * a + 256 * b + c) >>> 6 &&& 0x3F)
        = rfc4648.alphabet (rfc4648.bitsValue [b / 8 % 2 = 1, b / 4 % 2 = 1,
            b / 2 % 2 = 1, b % 2 = 1, c / 128 % 2 = 1, c / 64 % 2 = 1]) ∧
    base64.encode ((65536 * a + 256 * b + c) &&& 0x3F)
        = rfc4648.alphabet (rfc4648.bitsValue [c / 32 % 2 = 1, c / 16 % 2 = 1,
            c / 8 % 2 = 1, c / 4 % 2 = 1, c / 2 % 2 = 1, c % 2 = 1]) := by
  simp only [and_63, Nat.shiftRight_eq_div_pow, bitsValue_six, toNat_decide_odd]
  refine ⟨?_, ?_, ?_, ?_⟩
  · rw [encode_eq_alphabet _ (Nat.mod_lt _ (by decide))]
    congr 1
    omega
  · rw [encode_eq_alphabet _ (Nat.mod_lt _ (by decide))]
    congr 1
    omega
  · rw [encode_eq_alphabet _ (Nat.mod_lt _ (by decide))]
    congr 1
    omega
  · rw [encode_eq_alphabet _ (Nat.mod_lt _ (by decide))]
    congr 1
    omega

theorem characters_group (a b c : UInt8) (rest : List UInt8) :
    rfc4648.characters (a :: b :: c :: rest)
      = rfc4648.alphabet (rfc4648.bitsValue [a.toNat / 128 % 2 = 1, a.toNat / 64 % 2 = 1,
            a.toNat / 32 % 2 = 1, a.toNat / 16 % 2 = 1, a.toNat / 8 % 2 = 1, a.toNat / 4 % 2 = 1]) ::
        rfc4648.alphabet (rfc4648.bitsValue [a.toNat / 2 % 2 = 1, a.toNat % 2 = 1,
            b.toNat / 128 % 2 = 1, b.toNat / 64 % 2 = 1, b.toNat / 32 % 2 = 1, b.toNat / 16 % 2 = 1]) ::
        rfc4648.alphabet (rfc4648.bitsValue [b.toNat / 8 % 2 = 1, b.toNat / 4 % 2 = 1,
            b.toNat / 2 % 2 = 1, b.toNat % 2 = 1, c.toNat / 128 % 2 = 1, c.toNat / 64 % 2 = 1]) ::
        rfc4648.alphabet (rfc4648.bitsValue [c.toNat / 32 % 2 = 1, c.toNat / 16 % 2 = 1,
            c.toNat / 8 % 2 = 1, c.toNat / 4 % 2 = 1, c.toNat / 2 % 2 = 1, c.toNat % 2 = 1]) ::
        rfc4648.characters rest := by
  simp only [rfc4648.characters, List.flatMap_cons, rfc4648.octetBits, List.cons_append,
    List.nil_append, rfc4648.sextets, List.map_cons]
  rfl

/-- Refinement: `base64.StdEncoding` computes the padded Base64 of RFC 4648. -/
theorem Encode_eq_base64Std (src : List UInt8) :
    base64.Encode src = rfc4648.characters src
      ++ List.replicate ((4 - (rfc4648.characters src).length % 4) % 4) '=' := by
  induction src using base64.Encode.induct with
  | case1 a b c rest ih =>
    obtain ⟨h0, h1, h2, h3⟩ :=
      sextet_chars a.toNat b.toNat c.toNat (toNat_lt_256 a) (toNat_lt_256 b) (toNat_lt_256 c)
    rw [characters_group, base64.Encode]
    have hk : ∀ n : Nat, (4 - (n + 1 + 1 + 1 + 1) % 4) % 4 = (4 - n % 4) % 4 := by
      intro n; omega
    simp only [group_value _ _ _ (toNat_lt_256 b) (toNat_lt_256 c), h0, h1, h2, h3, ih,
      List.length_cons, hk, List.cons_append]
  | case2 a b =>
    obtain ⟨h0, h1, h2, _⟩ :=
      sextet_chars a.toNat b.toNat 0 (toNat_lt_256 a) (toNat_lt_256 b) (by decide)
    have hv : a.toNat <<< 16 ||| b.toNat <<< 8 = 65536 * a.toNat + 256 * b.toNat + 0 := by
      simpa using group_value a.toNat b.toNat 0 (toNat_lt_256 b) (by decide)
    simp only [base64.Encode, hv, h0, h1, h2]
    simp [rfc4648.characters, rfc4648.octetBits, rfc4648.sextets, base64.StdPadding]
  | case3 a =>
    obtain ⟨h0, h1, _, _⟩ :=
      sextet_chars a.toNat 0 0 (toNat_lt_256 a) (by decide) (by decide)
    have hv : a.toNat <<< 16 = 65536 * a.toNat + 256 * 0 + 0 := by
      rw [Nat.shiftLeft_eq]; omega
    simp only [base64.Encode, hv, h0, h1]
    simp [rfc4648.characters, rfc4648.octetBits, rfc4648.sextets, base64.StdPadding]
  | case4 => rfl

theorem EncodeToString_eq_base64Std (src : List UInt8) :
    base64.EncodeToString src = rfc4648.base64Std src := by
  simp [base64.EncodeToString, rfc4648.base64Std, Encode_eq_base64Std]

/-! ## The decorator -/

theorem Sprintf_pair (a b : String) : Sprintf "%s:%s" [a, b] = a ++ ":" ++ b := by
  apply String.ext
  simp [Sprintf, sprintfChars, String.data_append]

theorem Sprintf_authority (a b : String) : Sprintf "//%s:%s" [a, b] = "//" ++ a ++ ":" ++ b := by
  apply String.ext
  simp [Sprintf, sprintfChars, String.data_append]

theorem connectHeader_eq (proxyUser proxyPassword : String) :
    connectHeader proxyUser proxyPassword
      = [("Proxy-Authorization",
          ["Basic " ++ base64.EncodeToString (bytes (proxyUser ++ ":" ++ proxyPassword))])] := by
  have hkey : CanonicalMIMEHeaderKey authorizationHeader = "Proxy-Authorization" := by decide
  simp [connectHeader, http.Header.Add, hkey, Sprintf_pair]

/-- C4: the CONNECT header that `Request` installs has the single key `Proxy-Authorization`
with the single value `"Basic "` followed by the standard padded Base64 of the bytes of
`user:password`. -/
theorem Request_connectHeader (env : Env) (s : State) (request : http.Request)
    (proxyURL : url.URL) (proxyUser proxyPassword : String) :
    (proxy.Request env s request proxyURL proxyUser proxyPassword).2.self.client.Transport.map
        (fun t => t.ProxyConnectHeader)
      = some [("Proxy-Authorization",
          ["Basic " ++ rfc4648.base64Std (bytes (proxyUser ++ ":" ++ proxyPassword))])] := by
  simp [proxy.Request, connectHeader_eq, EncodeToString_eq_base64Std]

/-- C7: `Request` replaces the transport of the client by one whose proxy function returns
the given URL for every request and whose CONNECT header is the Basic-auth header of the
credentials, runs the request once through that client, and returns what the client returned;
the proxy list is kept. -/
theorem Request_decorates (env : Env) (s : State) (request : http.Request)
    (proxyURL : url.URL) (proxyUser proxyPassword : String) :
    ∃ (client : http.Client) (transport : http.Transport)
      (target : http.Request → Option url.URL × Option GoError),
      (proxy.Request env s request proxyURL proxyUser proxyPassword).2.self.client = client ∧
      client.Transport = some transport ∧
      client.Timeout = s.self.client.Timeout ∧
      transport.Proxy = some target ∧
      (∀ outgoing : http.Request, target outgoing = (some proxyURL, none)) ∧
      transport.ProxyConnectHeader = [("Proxy-Authorization",
        ["Basic " ++ base64.EncodeToString (bytes (proxyUser ++ ":" ++ proxyPassword))])] ∧
      (proxy.Request env s request proxyURL proxyUser proxyPassword).1 = env.Do client request ∧
      (proxy.Request env s request proxyURL proxyUser proxyPassword).2.effects
        = s.effects ++ [Effect.clientDo client request] ∧
      (proxy.Request env s request proxyURL proxyUser proxyPassword).2.self.proxyList
        = s.self.proxyList ∧
      ((proxy.Request env s request proxyURL proxyUser proxyPassword).1.2 ≠ none
        ↔ (env.Do client request).2 ≠ none) :=
  ⟨_, _, _, rfl, rfl, rfl, rfl, fun _ => rfl, connectHeader_eq proxyUser proxyPassword, rfl, rfl,
    rfl, Iff.rfl⟩

/-! ## Random-proxy requests -/

theorem fakeIntn_contract : IntnContract fakeIntn := by
  intro seed n hn
  refine ⟨seed % n, by simp [fakeIntn, hn], Int.emod_nonneg _ (by omega), Int.emod_lt_of_pos _ hn⟩

theorem chooseRandomIndex_spec (env : Env) (s : State) (hc : IntnContract env.Intn)
    (hne : s.self.proxyList ≠ []) :
    ∃ i : Int, proxy.chooseRandomIndex env s = (Outcome.returns i, afterSelection env s) ∧
      0 ≤ i ∧ i < s.self.proxyList.length := by
  have hpos : (0 : Int) < s.self.proxyList.length := by
    have := List.length_pos.2 hne
    omega
  obtain ⟨i, hi, h0, h1⟩ := hc env.Unix s.self.proxyList.length hpos
  exact ⟨i, by simp [proxy.chooseRandomIndex, hi, afterSelection], h0, h1⟩

theorem RequestWithRandomProxy_of_index (env : Env) (s : State) (request : http.Request)
    (i : Int) (line : String) (s1 : State)
    (hi : proxy.chooseRandomIndex env s = (Outcome.returns i, s1))
    (h0 : 0 ≤ i) (h1 : i < s.self.proxyList.length)
    (hline : s.self.proxyList.get? i.toNat = some line) :
    proxy.RequestWithRandomProxy env s request =
      (Outcome.returns (proxy.requestThrough env s1 request line).1,
        (proxy.requestThrough env s1 request line).2) := by
  have hs1 : s1.self = s.self := by
    unfold proxy.chooseRandomIndex at hi
    cases hI : env.Intn env.Unix s.self.proxyList.length with
    | none => simp [hI] at hi
    | some j =>
      simp only [hI, Prod.mk.injEq] at hi
      rw [← hi.2]
  have hlen : s.self.proxyList.length ≠ 0 := by
    intro h
    rw [h] at h1
    omega
  unfold proxy.RequestWithRandomProxy
  simp only [hlen, if_false, hi, hs1, h0, h1, and_self, if_true, hline]

theorem RequestWithRandomProxy_selects (env : Env) (s : State) (request : http.Request)
    (hc : IntnContract env.Intn) (hne : s.self.proxyList ≠ []) :
    ∃ (i : Int) (line : String),
      proxy.chooseRandomIndex env s = (Outcome.returns i, afterSelection env s) ∧
      0 ≤ i ∧ i < s.self.proxyList.length ∧
      s.self.proxyList.get? i.toNat = some line ∧ line ∈ s.self.proxyList ∧
      proxy.RequestWithRandomProxy env s request =
        (Outcome.returns (proxy.requestThrough env (afterSelection env s) request line).1,
          (proxy.requestThrough env (afterSelection env s) request line).2) := by
  obtain ⟨i, hi, h0, h1⟩ := chooseRandomIndex_spec env s hc hne
  have hlt : i.toNat < s.self.proxyList.length := by omega
  have hline : s.self.proxyList.get? i.toNat = some (s.self.proxyList.get ⟨i.toNat, hlt⟩) :=
    List.get?_eq_get hlt
  exact ⟨i, _, hi, h0, h1, hline, List.get_mem _ _ _,
    RequestWithRandomProxy_of_index env s request i _ _ hi h0 h1 hline⟩

theorem requestThrough_malformed (env : Env) (s : State) (request : http.Request)
    (line : String) (err : GoError) (h : (parseProxyString line).err = some err) :
    proxy.requestThrough env s request line = (⟨none, none, some err⟩, s) := by
  simp [proxy.requestThrough, h]

theorem requestThrough_invalid (env : Env) (s : State) (request : http.Request)
    (line : String) (err : GoError) (h : (parseProxyString line).err = none)
    (hp : env.Parse (Sprintf "//%s:%s" [(parseProxyString line).host, (parseProxyString line).port])
      = Except.error err) :
    proxy.requestThrough env s request line =
      (⟨none, none, some (errorsNew
        (Sprintf "unable to parse host / port into a valid uri, error: '%s'" [err]))⟩, s) := by
  simp [proxy.requestThrough, h, hp]

theorem requestThrough_ok (env : Env) (s : State) (request : http.Request)
    (line : String) (e : url.URL) (h : (parseProxyString line).err = none)
    (hp : env.Parse (Sprintf "//%s:%s" [(parseProxyString line).host, (parseProxyString line).port])
      = Except.ok e) :
    proxy.requestThrough env s request line =
      (⟨some e,
        (proxy.Request env s request e (parseProxyString line).username
          (parseProxyString line).password).1.1,
        (proxy.Request env s request e (parseProxyString line).username
          (parseProxyString line).password).1.2⟩,
       (proxy.Request env s request e (parseProxyString line).username
          (parseProxyString line).password).2) := by
  simp [proxy.requestThrough, h, hp]

theorem requestThrough_effects (env : Env) (s : State) (request : http.Request) (line : String) :
    (proxy.requestThrough env s request line).2 = s ∨
    ∃ client : http.Client,
      (proxy.requestThrough env s request line).2.effects
        = s.effects ++ [Effect.clientDo client request] := by
  cases h : (parseProxyString line).err with
  | some err => exact Or.inl (by rw [requestThrough_malformed env s request line err h])
  | none =>
    cases hp : env.Parse
        (Sprintf "//%s:%s" [(parseProxyString line).host, (parseProxyString line).port]) with
    | error err => exact Or.inl (by rw [requestThrough_invalid env s request line err h hp])
    | ok e =>
      right
      rw [requestThrough_ok env s request line e h hp]
      exact ⟨_, rfl⟩

/-- C3: with an empty proxy list (from `New`, or from `NewWithList` with an empty list)
`RequestWithRandomProxy` returns no endpoint, no response and an error whose text names
`gowebshareproxy.NewWithList()`; the receiver and the effects are left as they were, so the
clock, the generator, the transport and the client are not touched. -/
theorem RequestWithRandomProxy_noProxies (env : Env) (client : http.Client)
    (effects : List Effect) (request : http.Request) :
    ∃ msg : String,
      Contains msg "gowebshareproxy.NewWithList()" = true ∧
      proxy.RequestWithRandomProxy env ⟨New client, effects⟩ request
        = (Outcome.returns ⟨none, none, some msg⟩, ⟨New client, effects⟩) ∧
      proxy.RequestWithRandomProxy env ⟨NewWithList client [], effects⟩ request
        = (Outcome.returns ⟨none, none, some msg⟩, ⟨NewWithList client [], effects⟩) :=
  ⟨_, by decide, rfl, rfl⟩

/-- C5 as stated fails: for the list `["badline"]` the request fails with the error of
`parseProxyString "badline"`, and `badline` does not occur in its text. -/
theorem malformed_error_omits_line :
    ∃ msg : String,
      (parseProxyString "badline").err = some msg ∧
      (proxy.RequestWithRandomProxy fakeEnv ⟨NewWithList plainClient ["badline"], []⟩
        getRequest).1 = Outcome.returns ⟨none, none, some msg⟩ ∧
      ¬ ∃ a b : String, msg = a ++ "badline" ++ b := by
  refine ⟨_, rfl, rfl, ?_⟩
  rw [← Contains_iff]
  decide

/-- C5, amended: for every line that does not split into four fields the error text is one
fixed sentence, the same for every such line, in which the expected format
`<HOST>:<PORT>:<USER>:<PASS>` is quoted; `RequestWithRandomProxy` returns that error, with no
endpoint and no response, when such a line is chosen. -/
theorem malformed_error_text (line : String) (hbad : (Split line ':').length ≠ 4) :
    (parseProxyString line).err = some
      "expected a file containing a list of strings in the following format: '<HOST>:<PORT>:<USER>:<PASS>', but got a different format - it looks like the format of the file may have changed or you provided an incorrect file" ∧
    (parseProxyString line).err = some
      ("expected a file containing a list of strings in the following format: '" ++
        proxyStringFormat ++ "', but got a different format - it looks like the format of " ++
        "the file may have changed or you provided an incorrect file") ∧
    (∀ other : String, (Split other ':').length ≠ 4 →
      (parseProxyString other).err = (parseProxyString line).err) ∧
    (∀ (env : Env) (s s1 : State) (request : http.Request) (i : Int),
      proxy.chooseRandomIndex env s = (Outcome.returns i, s1) →
      0 ≤ i → i < s.self.proxyList.length → s.self.proxyList.get? i.toNat = some line →
      proxy.RequestWithRandomProxy env s request
        = (Outcome.returns ⟨none, none, (parseProxyString line).err⟩, s1)) := by
  have hline := parseProxyString_malformed line hbad
  refine ⟨by rw [hline], by rw [hline]; rfl, ?_, ?_⟩
  · intro other hother
    rw [hline, parseProxyString_malformed other hother]
  · intro env s s1 request i hi h0 h1 hget
    rw [RequestWithRandomProxy_of_index env s request i line s1 hi h0 h1 hget,
      requestThrough_malformed env s1 request line _ (by rw [hline]), hline]

theorem malformed_error_text_witness :
    (parseProxyString "badline").err = some
      "expected a file containing a list of strings in the following format: '<HOST>:<PORT>:<USER>:<PASS>', but got a different format - it looks like the format of the file may have changed or you provided an incorrect file" :=
  (malformed_error_text "badline" (by decide)).1

/-- C8: under the contract of `Intn`, for a non-empty list `chooseRandomIndex` returns an index
`i` with `0 ≤ i < N`, the lookup succeeds, the line that is parsed is an element of the list,
and `RequestWithRandomProxy` never panics; whatever the list, every call of `Intn` that the
request makes has a positive bound. -/
theorem chooseRandomIndex_in_range (env : Env) (s : State) (request : http.Request)
    (hc : IntnContract env.Intn) :
    (s.self.proxyList ≠ [] →
      ∃ (i : Int) (line : String),
        proxy.chooseRandomIndex env s = (Outcome.returns i, afterSelection env s) ∧
        0 ≤ i ∧ i < s.self.proxyList.length ∧
        s.self.proxyList.get? i.toNat = some line ∧ line ∈ s.self.proxyList ∧
        proxy.RequestWithRandomProxy env s request =
          (Outcome.returns (proxy.requestThrough env (afterSelection env s) request line).1,
            (proxy.requestThrough env (afterSelection env s) request line).2)) ∧
    (∀ (reason : String) (s2 : State),
      proxy.RequestWithRandomProxy env s request ≠ (Outcome.panic reason, s2)) ∧
    (∀ seed n : Int,
      Effect.randIntn seed n ∈ (proxy.RequestWithRandomProxy env s request).2.effects →
      Effect.randIntn seed n ∈ s.effects ∨ 0 < n) := by
  by_cases hne : s.self.proxyList = []
  · have hrun : ∃ r, proxy.RequestWithRandomProxy env s request = (Outcome.returns r, s) := by
      unfold proxy.RequestWithRandomProxy
      rw [if_pos (by simp [hne])]
      exact ⟨_, rfl⟩
    obtain ⟨r, hrun⟩ := hrun
    refine ⟨fun h => absurd hne h, ?_, ?_⟩
    · intro reason s2
      rw [hrun]
      simp
    · intro seed n hmem
      rw [hrun] at hmem
      exact Or.inl hmem
  · obtain ⟨i, line, hi, h0, h1, hget, hmem, hrun⟩ :=
      RequestWithRandomProxy_selects env s request hc hne
    refine ⟨fun _ => ⟨i, line, hi, h0, h1, hget, hmem, hrun⟩, ?_, ?_⟩
    · intro reason s2
      rw [hrun]
      simp
    · intro seed n hin
      have hpos : (0 : Int) < s.self.proxyList.length := by
        have := List.length_pos.2 hne
        omega
      rw [hrun] at hin
      rcases requestThrough_effects env (afterSelection env s) request line with h | ⟨c, h⟩
      · rw [h] at hin
        simp only [afterSelection, List.mem_append, List.mem_cons, List.mem_singleton,
          List.not_mem_nil, or_false] at hin
        rcases hin with hin | hin | hin
        · exact Or.inl hin
        · cases hin
        · injection hin with _ hn
          exact Or.inr (hn ▸ hpos)
      · rw [h] at hin
        simp only [afterSelection, List.mem_append, List.mem_cons, List.mem_singleton,
          List.not_mem_nil, or_false] at hin
        rcases hin with (hin | hin | hin) | hin
        · exact Or.inl hin
        · cases hin
        · injection hin with _ hn
          exact Or.inr (hn ▸ hpos)
        · cases hin

theorem chooseRandomIndex_in_range_witness :
    IntnContract fakeEnv.Intn ∧
    ∃ (i : Int) (line : String),
      proxy.chooseRandomIndex fakeEnv demoState
        = (Outcome.returns i, afterSelection fakeEnv demoState) ∧
      0 ≤ i ∧ i < demoState.self.proxyList.length ∧
      demoState.self.proxyList.get? i.toNat = some line ∧ line ∈ demoState.self.proxyList ∧
      proxy.RequestWithRandomProxy fakeEnv demoState getRequest =
        (Outcome.returns
          (proxy.requestThrough fakeEnv (afterSelection fakeEnv demoState) getRequest line).1,
          (proxy.requestThrough fakeEnv (afterSelection fakeEnv demoState) getRequest line).2) :=
  ⟨fakeIntn_contract,
    (chooseRandomIndex_in_range fakeEnv demoState getRequest fakeIntn_contract).1
      (by simp [demoState, NewWithList])⟩

/-- C9 as stated fails: the line `a/b:80:u:p` has four colon-free fields and `url.Parse`
composes `//a/b:80` into an endpoint, yet the endpoint that `RequestWithRandomProxy` returns
has host part `a`, not `a/b:80`. -/
theorem RequestWithRandomProxy_single_host_differs :
    ':' ∉ ("a/b" : String).data ∧ ':' ∉ ("80" : String).data ∧
    ':' ∉ ("u" : String).data ∧ ':' ∉ ("p" : String).data ∧
    slashState.self.proxyList = ["a/b" ++ ":" ++ "80" ++ ":" ++ "u" ++ ":" ++ "p"] ∧
    fakeEnv.Parse ("//" ++ "a/b" ++ ":" ++ "80") = Except.ok slashEndpoint ∧
    (proxy.RequestWithRandomProxy fakeEnv slashState getRequest).1
      = Outcome.returns ⟨some slashEndpoint, some { StatusCode := 200, Body := "ok" }, none⟩ ∧
    slashEndpoint.Host = "a" ∧
    slashEndpoint.Host ≠ "a/b" ++ ":" ++ "80" :=
  ⟨by decide, by decide, by decide, by decide, rfl, rfl, rfl, rfl, by decide⟩

/-- C9, amended: for the one-element list `[h:p:u:pw]` with colon-free fields, whatever the
clock says, when `url.Parse` composes `//h:p` into an endpoint, `RequestWithRandomProxy`
returns that endpoint, as `url.Parse` built it, with the result of one `Request` call made
with that endpoint, user `u` and password `pw`: the client is called once, through a transport
that targets the endpoint and carries the Basic-auth header of `u:pw`. -/
theorem RequestWithRandomProxy_single (env : Env) (s : State) (request : http.Request)
    (h p u pw : String) (e : url.URL) (hc : IntnContract env.Intn)
    (hh : ':' ∉ h.data) (hp : ':' ∉ p.data) (hu : ':' ∉ u.data) (hpw : ':' ∉ pw.data)
    (hlist : s.self.proxyList = [h ++ ":" ++ p ++ ":" ++ u ++ ":" ++ pw])
    (hparse : env.Parse ("//" ++ h ++ ":" ++ p) = Except.ok e) :
    proxy.RequestWithRandomProxy env s request =
      (Outcome.returns ⟨some e,
          (proxy.Request env (afterSelection env s) request e u pw).1.1,
          (proxy.Request env (afterSelection env s) request e u pw).1.2⟩,
        (proxy.Request env (afterSelection env s) request e u pw).2) ∧
    ∃ client : http.Client,
      client.Transport.map (fun t => t.ProxyConnectHeader)
        = some [("Proxy-Authorization",
            ["Basic " ++ base64.EncodeToString (bytes (u ++ ":" ++ pw))])] ∧
      client.Transport.bind (fun t => t.Proxy.map (fun target => target request))
        = some (some e, none) ∧
      (proxy.Request env (afterSelection env s) request e u pw).1 = env.Do client request ∧
      (proxy.Request env (afterSelection env s) request e u pw).2.effects
        = s.effects ++ [Effect.timeNow, Effect.randIntn env.Unix 1,
            Effect.clientDo client request] := by
  have hne : s.self.proxyList ≠ [] := by simp [hlist]
  obtain ⟨i, line, _, _, _, _, hmem, hrun⟩ :=
    RequestWithRandomProxy_selects env s request hc hne
  have hline : line = h ++ ":" ++ p ++ ":" ++ u ++ ":" ++ pw := by
    rw [hlist] at hmem
    exact List.mem_singleton.1 hmem
  have hparsed := parseProxyString_fields h p u pw hh hp hu hpw
  rw [← hline] at hparsed
  have hok : (parseProxyString line).err = none := by rw [hparsed]
  have hurl : env.Parse
      (Sprintf "//%s:%s" [(parseProxyString line).host, (parseProxyString line).port])
        = Except.ok e := by
    rw [hparsed, Sprintf_authority]
    exact hparse
  constructor
  · rw [hrun, requestThrough_ok env _ request line e hok hurl, hparsed]
  · refine ⟨_, ?_, ?_, rfl, ?_⟩
    · simp [connectHeader_eq]
    · rfl
    · simp [proxy.Request, afterSelection, hlist]

theorem RequestWithRandomProxy_single_witness :
    (proxy.RequestWithRandomProxy fakeEnv demoState getRequest).1
      = Outcome.returns ⟨some demoEndpoint, some { StatusCode := 200, Body := "ok" }, none⟩ ∧
    demoEndpoint.Host = "1.2.3.4:8080" ∧
    connectHeader "alice" "secret" = [("Proxy-Authorization", ["Basic YWxpY2U6c2VjcmV0"])] := by
  have hrun := (RequestWithRandomProxy_single fakeEnv demoState getRequest
    "1.2.3.4" "8080" "alice" "secret" demoEndpoint fakeIntn_contract
    (by decide) (by decide) (by decide) (by decide) rfl rfl).1
  refine ⟨?_, rfl, by decide⟩
  rw [hrun]
  rfl

end gowebshareproxy
